import Mathlib

set_option autoImplicit false

/-!
Verification development for the p2pg repository core
(`core/node.py`, `core/ld.py`, `core/db.py`, `core/bbytes.py`).

Python `bytes`/`bytearray` values are modelled as `List Nat` whose elements
are below 256; Python exceptions are modelled by the `PyErr` type and
fallible code returns `Except PyErr _`.  Dynamic-typing failures of the
source (for example `len(None)`, or `bytes + int`) are modelled as the
`TypeError` they raise at run time; each such spot is annotated with the
source line it embeds.
-/

/-- Python exceptions raised by the embedded code.  Exception messages are
dropped; each constructor corresponds to one Python exception class. -/
inductive PyErr where
  | typeError
  | valueError
  | overflowError
  | decodeError
  | keyError
  | indexError
  | attributeError
  | assertionError
  | zeroDivisionError
  | linkageError
  | loaderError
  deriving DecidableEq, Repr

/-- Little-endian encoding `x.to_bytes(n, 'little')` restricted to the
in-range case (the caller models `OverflowError` separately). -/
def toBytesLE (n : Nat) (x : Nat) : List Nat :=
  match n with
  | 0 => []
  | m + 1 => x % 256 :: toBytesLE m (x / 256)

/-- Python `int.from_bytes(l, 'little')`. -/
def fromBytesLE (l : List Nat) : Nat :=
  match l with
  | [] => 0
  | b :: rest => b + 256 * fromBytesLE rest

/-- Decidable equality for `Except`, used to settle concrete runs by
`decide`. -/
instance instDecEqExcept {ε α : Type} [DecidableEq ε] [DecidableEq α] :
    DecidableEq (Except ε α) := fun a b =>
  match a, b with
  | .error e, .error f =>
    if h : e = f then isTrue (congrArg Except.error h)
    else isFalse (fun hh => h (Except.error.inj hh))
  | .error _, .ok _ => isFalse (fun hh => Except.noConfusion hh)
  | .ok _, .error _ => isFalse (fun hh => Except.noConfusion hh)
  | .ok x, .ok y =>
    if h : x = y then isTrue (congrArg Except.ok h)
    else isFalse (fun hh => h (Except.ok.inj hh))

/-- Stand-in digest for `hashlib.sha256` (an external library, not part of
this repository's source).  It returns a 32-byte value computed from the
input; no claim settled below depends on the numerical value of a digest,
only on digests being 32-byte strings, so an executable stand-in with the
right length is a faithful model for every theorem in this file. -/
def sha256 (data : List Nat) : List Nat :=
  let h := data.foldl (fun a b => (a * 257 + b % 256 + 1) % 1099511627689) 7
  (List.range 32).map (fun i => (h / 2 ^ (i % 5 * 8) + i * 131 + data.length * 17) % 256)

/-- UTF-8 encoding of one Unicode code point, as produced by Python's
`str.encode('utf-8')`. -/
def utf8EncodeChar (c : Nat) : List Nat :=
  if c < 128 then [c]
  else if c < 2048 then [192 + c / 64, 128 + c % 64]
  else if c < 65536 then [224 + c / 4096, 128 + c / 64 % 64, 128 + c % 64]
  else [240 + c / 262144, 128 + c / 4096 % 64, 128 + c / 64 % 64, 128 + c % 64]

/-- Python `msg.encode('utf-8')` for a `str` value. -/
def utf8Encode (s : String) : List Nat :=
  (s.data.map (fun c => utf8EncodeChar c.toNat)).flatten

/-- Flag byte `BASE = b'b'` (`core/node.py`). -/
def BASE : List Nat := [98]

/-- Flag byte `CHILD = b'c'` (`core/node.py`). -/
def CHILD : List Nat := [99]

/-- The fields stored by `core/node.py:Node.__init__`: `_flag`, `_parent`,
`_msg`, `_len`, `_sha`.  The `_cache` field is omitted: it only memoizes
`to_bytes`, whose value is a pure function of these fields. -/
structure Node where
  flag : List Nat
  parent : List Nat
  msg : List Nat
  len : List Nat
  sha : List Nat
  deriving DecidableEq, Repr

/-- Embedding of `Node.__init__(self, msg, parent=None)` (core/node.py lines
30 to 54).  Note the source checks `len(parent) != 32` before handling the
`parent is None` default, so an absent parent raises
`TypeError: object of type 'NoneType' has no len()`; the `BASE` branch of
`if parent:` is unreachable (a 32-byte parent is never falsy). -/
def Node.init (msg : String) (parent : Option (List Nat)) : Except PyErr Node :=
  match parent with
  | none => .error .typeError
  | some p =>
    if p.length ≠ 32 then .error .valueError
    else
      let m := utf8Encode msg
      if m.length ≤ 2 ^ 16 then
        if m.length = 2 ^ 16 then
          .error .overflowError
        else
          let len := toBytesLE 2 m.length
          if p = [] then
            .ok { flag := BASE, parent := List.replicate 32 0, msg := m, len := len,
                  sha := sha256 (BASE ++ List.replicate 32 0 ++ len ++ m) }
          else
            .ok { flag := CHILD, parent := p, msg := m, len := len,
                  sha := sha256 (CHILD ++ p ++ len ++ m) }
      else .error .valueError

/-- Embedding of the `Node.parent` property: returns the stored parent for a
`CHILD` node and `None` otherwise. -/
def Node.parentProp (n : Node) : Option (List Nat) :=
  if n.flag = CHILD then some n.parent else none

/-- Embedding of `Node.to_bytes` (core/node.py lines 72 to 85): the byte
layout `flag ++ parent ++ len ++ msg ++ sha`.  The `_cache` memoization has
no observable effect on a pure value. -/
def Node.to_bytes (n : Node) : List Nat :=
  n.flag ++ n.parent ++ n.len ++ n.msg ++ n.sha

/-- Embedding of `Node.from_bytes` (core/node.py lines 87 to 110), reading
from a byte stream (short reads return the available bytes, as `io` does).
After the fields are read, line 107 evaluates
`sha256(flag + parent + length + msg)` where `length` is the `int` returned
by `int.from_bytes` (and, on the `BASE` branch, `parent` is `None`), so the
concatenation raises `TypeError` before any digest is compared; the
`DecodeError('incorrect hash')` of line 108 and the constructor call of line
110 are unreachable.  The guard `length > 2**16` can never fire because two
bytes decode to at most 65535. -/
def Node.from_bytes (b : List Nat) : Except PyErr Node :=
  let flag := b.take 1
  if flag = BASE then
    let rest := (b.drop 1).drop 32
    let length := fromBytesLE (rest.take 2)
    if length > 2 ^ 16 then .error .decodeError
    else .error .typeError
  else if flag = CHILD then
    let afterFlag := b.drop 1
    let _parent := afterFlag.take 32
    let rest := afterFlag.drop 32
    let length := fromBytesLE (rest.take 2)
    if length > 2 ^ 16 then .error .decodeError
    else .error .typeError
  else .error .decodeError

/-- Lookup in a Python `dict` with byte-string keys, modelled as an
association list in insertion order (`d[key]`, returning `None`-as-`none`
when absent). -/
def dLookup {β : Type} (m : List (List Nat × β)) (k : List Nat) : Option β :=
  match m with
  | [] => none
  | (k1, v1) :: rest => if k1 = k then some v1 else dLookup rest k

/-- Assignment `d[key] = value` in a Python `dict`: an existing key keeps its
position and gets the new value, a new key is appended. -/
def dInsert {β : Type} (m : List (List Nat × β)) (k : List Nat) (v : β) :
    List (List Nat × β) :=
  match m with
  | [] => [(k, v)]
  | (k1, v1) :: rest =>
    if k1 = k then (k1, v) :: rest else (k1, v1) :: dInsert rest k v

/-- The `_nodes` dictionary of `core/node.py:Tree`, mapping a digest to a
`Node`. -/
abbrev NodeMap : Type := List (List Nat × Node)

/-- Embedding of `Tree.link` (core/node.py lines 133 to 137): `node` is
inserted under key `node.sha` when `node.parent in self._nodes`; otherwise
`LinkageError` is raised.  For a node whose `parent` property is `None`
(any non-`CHILD` flag) the membership test `None in self._nodes` is false,
because every key of the dictionary is a byte string. -/
def Tree.link (nodes : NodeMap) (n : Node) : Except PyErr NodeMap :=
  match n.parentProp with
  | some p => if (dLookup nodes p).isSome then .ok (dInsert nodes n.sha n)
              else .error .linkageError
  | none => .error .linkageError

/-- One iteration of the loop of `Tree.retrace` (core/node.py lines 142 to
154): `parent = self._nodes[node.sha].parent` (an absent key raises an
uncaught `KeyError`); a falsy `parent` (`None`, or an empty byte string)
breaks the loop; otherwise `self._nodes[parent]` is yielded, with the
`KeyError` of a missing parent converted to `LinkageError`.  The result is
`ok none` for a normal break and `ok (some next)` for a yield. -/
def Tree.retraceStep (nodes : NodeMap) (node : Node) : Except PyErr (Option Node) :=
  match dLookup nodes node.sha with
  | none => .error .keyError
  | some cur =>
    match cur.parentProp with
    | none => .ok none
    | some p =>
      if p = [] then .ok none
      else
        match dLookup nodes p with
        | none => .error .linkageError
        | some nd => .ok (some nd)

/-- The sequence yielded by the generator `Tree.retrace` when it is consumed
for at most `fuel` iterations: `some (ok l)` when the generator finishes
normally having yielded `l`, `some (error e)` when an iteration raises, and
`none` when `fuel` iterations did not exhaust the generator (the Python loop
has no bound of its own). -/
def Tree.retraceFuel (nodes : NodeMap) (fuel : Nat) (node : Node) :
    Option (Except PyErr (List Node)) :=
  match fuel with
  | 0 => none
  | f + 1 =>
    match Tree.retraceStep nodes node with
    | .error e => some (.error e)
    | .ok none => some (.ok [])
    | .ok (some nd) =>
      (Tree.retraceFuel nodes f nd).map (fun r => r.map (fun l => nd :: l))

/-- On-disk record layout written by `LinearDict.iter_dump` for one entry:
`keylen(2, LE) ++ key ++ vallen(4, LE) ++ value` (core/ld.py lines 158 to
163). -/
def encodeRec (kv : List Nat × List Nat) : List Nat :=
  toBytesLE 2 kv.1.length ++ kv.1 ++ toBytesLE 4 kv.2.length ++ kv.2

/-- The record section of the file written by `iter_dump`, in the
dictionary's iteration order.  Python's `len(k).to_bytes(2, 'little')`
raises `OverflowError` when a length does not fit the declared width
(core/ld.py lines 159 and 162). -/
def dumpRecs : List (List Nat × List Nat) → Except PyErr (List Nat)
  | [] => .ok []
  | (k, v) :: rest =>
    if k.length ≥ 2 ^ 16 then .error .overflowError
    else if v.length ≥ 2 ^ 32 then .error .overflowError
    else (dumpRecs rest).map (fun t => encodeRec (k, v) ++ t)

/-- Embedding of `LinearDict.iter_dump` run to completion (core/ld.py lines
149 to 167): the file is truncated, the dictionary length is written as
`count(8, LE)`, then every entry is written with `encodeRec`. -/
def iter_dump (d : List (List Nat × List Nat)) : Except PyErr (List Nat) :=
  if d.length ≥ 2 ^ 64 then .error .overflowError
  else (dumpRecs d).map (fun recs => toBytesLE 8 d.length ++ recs)

/-- The record-reading loop of `LinearDict.iter_load` (core/ld.py lines 181
to 203), consuming `rest` with the already-loaded dictionary `acc`.  A short
read of a declared key or value length raises `LoaderError` and keeps the
entries loaded so far; an empty `read(2)` ends the generator by the
`raise StopIteration` idiom of line 186, which terminates iteration normally
on the Python versions this repository targets (before the PEP 479 change
of Python 3.7).  `file.read(n)` returns the available bytes on a short
read. -/
def loadGo (acc : List (List Nat × List Nat)) (rest : List Nat) :
    List (List Nat × List Nat) × Option PyErr :=
  let tmp := rest.take 2
  if h : tmp = [] then (acc, none)
  else
    let k_len := fromBytesLE tmp
    let k := (rest.drop 2).take k_len
    if k.length ≠ k_len then (acc, some .loaderError)
    else
      let rest2 := rest.drop (2 + k_len)
      let v_len := fromBytesLE (rest2.take 4)
      let v := (rest2.drop 4).take v_len
      if v.length ≠ v_len then (acc, some .loaderError)
      else loadGo (dInsert acc k v) (rest2.drop (4 + v_len))
termination_by rest.length
decreasing_by
  have hne : rest ≠ [] := by
    intro hr
    apply h
    show List.take 2 rest = []
    rw [hr]
    exact List.take_nil
  have hpos : 0 < rest.length := List.length_pos.mpr hne
  simp only [List.length_drop]
  omega

/-- Embedding of `LinearDict.iter_load` run to completion (core/ld.py lines
176 to 204): `get_length()` seeks to 0 and reads 8 header bytes, the
dictionary is cleared, then records are replayed from file offset 8.  The
result is the final dictionary contents together with the exception raised,
if any. -/
def iter_load (file : List Nat) : List (List Nat × List Nat) × Option PyErr :=
  loadGo [] (file.drop 8)

/-- State of `core/db.py:HighDensityDB` relevant to lookup: the
configuration and the backing file's bytes. -/
structure HDDB where
  step : Nat
  key_size : Nat
  file : List Nat
  deriving DecidableEq, Repr

/-- Bytes returned by `file.read(n)` after `file.seek(pos)`; a short read
returns the bytes that exist. -/
def readAt (file : List Nat) (pos n : Nat) : List Nat :=
  (file.drop pos).take n

/-- Embedding of `HighDensityDB.__init__` (core/db.py lines 80 to 91).  The
first assertion (`file_obj` is a buffered file) is a precondition of the
model; the second, `assert key_size*256 % step`, fails with
`AssertionError` exactly when `key_size * 256` is a multiple of `step`
(and `% 0` raises `ZeroDivisionError` first). -/
def HighDensityDB.init (file : List Nat) (step key_size : Nat) : Except PyErr HDDB :=
  if step = 0 then .error .zeroDivisionError
  else if key_size * 256 % step = 0 then .error .assertionError
  else .ok { step := step, key_size := key_size, file := file }

/-- A loaded `Section` handle: `_Index` carries its position, `_Data` its
position and declared size. -/
inductive Sect where
  | index (pos : Nat)
  | data (pos size : Nat)
  deriving DecidableEq, Repr

/-- Embedding of `_Index.__getitem__` together with `_Index.seek`
(core/db.py lines 222 to 234): reads the `key_size`-byte slot for byte
`key`; `seek` raises `ValueError` when `key > step`, and a decoded slot
value of zero raises `KeyError('unset index')`. -/
def Index.getitem (db : HDDB) (pos : Nat) (key : Nat) : Except PyErr Nat :=
  if key > db.step then .error .valueError
  else
    let next_pos := fromBytesLE (readAt db.file (pos + db.key_size * key) db.key_size)
    if next_pos = 0 then .error .keyError else .ok next_pos

/-- Embedding of `HighDensityDB.load_item` with `mark` (core/db.py lines 128
to 151): reads the 1-byte type tag at the current offset (`read(1)` at end
of file yields `b''`, which decodes to 0, selecting `'index'`), then builds
the `Section`.  A tag of 2 or more raises `IndexError` in
`sections[...]`.  The `'data'` branch constructs
`_Data(self, tell, size)` (core/db.py lines 246 to 260), which raises
`ValueError('limit too small')` when `size <= 2*key_size` and otherwise
raises `AttributeError`: `_find_next` calls `self.seek(self.limit)`, whose
`offset < self.limit` test fails at equality, so it evaluates `self.next`,
reading `self._next` before that attribute is ever assigned. -/
def HDDB.load_item (db : HDDB) (pos : Nat) : Except PyErr Sect :=
  let tag := readAt db.file pos 1
  let m := fromBytesLE tag
  if m = 0 then .ok (.index (pos + tag.length))
  else if m = 1 then
    let szb := readAt db.file (pos + tag.length) db.key_size
    let size := fromBytesLE szb
    if size ≤ 2 * db.key_size then .error .valueError
    else .error .attributeError
  else .error .indexError

/-- The walk of `HighDensityDB.__getitem__` over the non-final key bytes
(core/db.py lines 158 to 166).  The read slot is never zero —
`_Index.__getitem__` raises `KeyError` instead of returning 0 — so the
`else` branch that would allocate a fresh section is unreachable; were it
reached, `item[i] = self.size` passes the `int` offset to
`_Index.__setitem__`, whose `len(value)` raises `TypeError`
(core/db.py lines 236 to 237).  Subscripting a `_Data` item raises
`TypeError` because `_Data` defines no `__getitem__`. -/
def HDDB.getitemGo (db : HDDB) (item : Sect) : List Nat → Except PyErr Sect
  | [] => .ok item
  | i :: rest =>
    match item with
    | .index p =>
      match Index.getitem db p i with
      | .error e => .error e
      | .ok pos =>
        if pos ≠ 0 then
          match db.load_item pos with
          | .error e => .error e
          | .ok item1 => HDDB.getitemGo db item1 rest
        else .error .typeError
    | .data _ _ => .error .typeError

/-- Embedding of `HighDensityDB.__getitem__` (core/db.py lines 153 to 167):
checks the key length, then walks `key[:-1]` starting from the root
`_Index` at offset 0. -/
def HDDB.getitem (db : HDDB) (key : List Nat) : Except PyErr Sect :=
  if key.length ≠ db.key_size then .error .valueError
  else HDDB.getitemGo db (.index 0) key.dropLast

/-- Embedding of `Byte.__getitem__` (core/bbytes.py lines 8 to 11) for a
byte value below 256: bit `item` counted from the most significant bit.
For `item > 7` the exponent `7 - item` is negative, so `2**pos` is a small
float and `(self // 2**pos) % 2` is the float `(self * 2**(item-7)) % 2`,
which is an even number, hence 0 (exact for every byte value and every
`item` reachable below). -/
def Byte.getitem (b : Nat) (item : Nat) : Nat :=
  if item ≤ 7 then b / 2 ^ (7 - item) % 2 else 0

/-- Embedding of the single-bit read `ByteArray.__getitem__` with a tuple
key (core/bbytes.py lines 20 to 22): `Byte(bytearray[byte])[bitIdx]`, with
`IndexError` on an out-of-range byte index. -/
def ByteArray.getitemBit (a : List Nat) (byteIdx bitIdx : Nat) : Except PyErr Nat :=
  match a.get? byteIdx with
  | none => .error .indexError
  | some b => .ok (Byte.getitem b bitIdx)

/-- Embedding of the single-bit write `ByteArray.__setitem__` with a tuple
key (core/bbytes.py lines 39 to 53).  For `bitIdx > 7` the place value
`2**(7 - bitIdx)` is a float below 1, so the tested bit
`(byte // place) % 2` is the even float `(byte * 2**(bitIdx-7)) % 2`, which
is falsy: assigning 1 computes `byte + place`, a float, and
`bytearray.__setitem__` then raises `TypeError`; assigning 0 computes
`byte - 0`, leaving the array unchanged. -/
def ByteArray.setitemBit (a : List Nat) (byteIdx bitIdx value : Nat) :
    Except PyErr (List Nat) :=
  match a.get? byteIdx with
  | none => .error .indexError
  | some b =>
    if bitIdx ≤ 7 then
      let place := 2 ^ (7 - bitIdx)
      let bit := b / place % 2
      if value = 1 then .ok (a.set byteIdx (if bit = 1 then b else b + place))
      else if value = 0 then .ok (a.set byteIdx (if bit = 1 then b - place else b))
      else .error .valueError
    else
      if value = 1 then .error .typeError
      else if value = 0 then .ok a
      else .error .valueError

/-- Embedding of `ByteArray.bit(n, v=None)` (core/bbytes.py lines 31 to 37).
The byte index is `n // 8` but the bit index is computed as
`carry = n - byte`, not `n % 8`.  The guard `if v:` selects the write path
only for a truthy `v`, so both `v = None` and `v = 0` read.  The result is
the returned bit (if any) paired with the array after the call. -/
def ByteArray.bit (a : List Nat) (n : Nat) (v : Option Nat) :
    Except PyErr (Option Nat × List Nat) :=
  let byte := n / 8
  let carry := n - byte
  match v with
  | some k =>
    if k ≠ 0 then (ByteArray.setitemBit a byte carry k).map (fun a1 => (none, a1))
    else (ByteArray.getitemBit a byte carry).map (fun r => (some r, a))
  | none => (ByteArray.getitemBit a byte carry).map (fun r => (some r, a))

/-- Concrete base node used by the tree theorems below (its digest bytes are
arbitrary: `Tree.link` and `Tree.retrace` treat `sha` only as a dictionary
key). -/
def baseEx : Node :=
  { flag := BASE, parent := List.replicate 32 0, msg := [48], len := [1, 0],
    sha := List.replicate 32 10 }

/-- Concrete child of `baseEx`. -/
def n1Ex : Node :=
  { flag := CHILD, parent := List.replicate 32 10, msg := [49], len := [1, 0],
    sha := List.replicate 32 11 }

/-- Concrete child of `n1Ex`. -/
def n2Ex : Node :=
  { flag := CHILD, parent := List.replicate 32 11, msg := [50], len := [1, 0],
    sha := List.replicate 32 12 }

/-- Concrete child of `n2Ex`. -/
def n3Ex : Node :=
  { flag := CHILD, parent := List.replicate 32 12, msg := [51], len := [1, 0],
    sha := List.replicate 32 13 }

/-- Tree dictionary holding the chain `baseEx → n1Ex → n2Ex → n3Ex`. -/
def treeEx : NodeMap :=
  [(baseEx.sha, baseEx), (n1Ex.sha, n1Ex), (n2Ex.sha, n2Ex), (n3Ex.sha, n3Ex)]

/-- Concrete well-formed child node used to witness the corruption
theorem. -/
def c7node : Node :=
  { flag := CHILD, parent := List.replicate 32 2, msg := [104, 105], len := [2, 0],
    sha := List.replicate 32 7 }

theorem toBytesLE_length (n x : Nat) : (toBytesLE n x).length = n := by
  induction n generalizing x with
  | zero => rfl
  | succ m ih => simp [toBytesLE, ih]

theorem fromBytesLE_toBytesLE (n x : Nat) (h : x < 256 ^ n) :
    fromBytesLE (toBytesLE n x) = x := by
  induction n generalizing x with
  | zero =>
    simp only [pow_zero, Nat.lt_one_iff] at h
    simp [toBytesLE, fromBytesLE, h]
  | succ m ih =>
    have hx : x / 256 < 256 ^ m := by
      rw [Nat.div_lt_iff_lt_mul (by norm_num)]
      calc x < 256 ^ (m + 1) := h
        _ = 256 ^ m * 256 := by ring
    simp [toBytesLE, fromBytesLE, ih (x / 256) hx]
    omega

theorem fromBytesLE_lt (l : List Nat) (h : ∀ b ∈ l, b < 256) :
    fromBytesLE l < 256 ^ l.length := by
  induction l with
  | nil => simp [fromBytesLE]
  | cons b rest ih =>
    have hb : b < 256 := h b (by simp)
    have hr := ih (fun x hx => h x (by simp [hx]))
    simp only [fromBytesLE, List.length_cons, pow_succ]
    calc b + 256 * fromBytesLE rest
        < 256 + 256 * fromBytesLE rest := by omega
      _ = 256 * (fromBytesLE rest + 1) := by ring
      _ ≤ 256 * 256 ^ rest.length := Nat.mul_le_mul_left 256 hr
      _ = 256 ^ rest.length * 256 := by ring

theorem toBytesLE_mem_lt (n x : Nat) : ∀ b ∈ toBytesLE n x, b < 256 := by
  induction n generalizing x with
  | zero => simp [toBytesLE]
  | succ m ih =>
    intro b hb
    simp only [toBytesLE, List.mem_cons] at hb
    rcases hb with hb | hb
    · subst hb; exact Nat.mod_lt _ (by norm_num)
    · exact ih (x / 256) b hb

theorem sha256_length (data : List Nat) : (sha256 data).length = 32 := by
  simp [sha256]

theorem sha256_mem_lt (data : List Nat) : ∀ b ∈ sha256 data, b < 256 := by
  intro b hb
  simp only [sha256, List.mem_map] at hb
  obtain ⟨i, _, rfl⟩ := hb
  exact Nat.mod_lt _ (by norm_num)

theorem char_toNat_lt (c : Char) : c.toNat < 1114112 := by
  have h := c.valid
  rcases h with h | h
  · exact Nat.lt_trans (by exact_mod_cast h) (by norm_num)
  · exact_mod_cast h.2

theorem utf8EncodeChar_mem_lt (c : Nat) (hc : c < 4194304) :
    ∀ b ∈ utf8EncodeChar c, b < 256 := by
  intro b hb
  unfold utf8EncodeChar at hb
  by_cases h1 : c < 128
  · simp [h1] at hb; omega
  · by_cases h2 : c < 2048
    · have hd : c / 64 < 32 := by omega
      have hm : c % 64 < 64 := Nat.mod_lt _ (by norm_num)
      simp [h1, h2] at hb
      rcases hb with hb | hb <;> omega
    · by_cases h3 : c < 65536
      · have hd : c / 4096 < 16 := by omega
        have hm1 : c / 64 % 64 < 64 := Nat.mod_lt _ (by norm_num)
        have hm : c % 64 < 64 := Nat.mod_lt _ (by norm_num)
        simp [h1, h2, h3] at hb
        rcases hb with hb | hb | hb <;> omega
      · have hd : c / 262144 < 16 := by omega
        have hm2 : c / 4096 % 64 < 64 := Nat.mod_lt _ (by norm_num)
        have hm1 : c / 64 % 64 < 64 := Nat.mod_lt _ (by norm_num)
        have hm : c % 64 < 64 := Nat.mod_lt _ (by norm_num)
        simp [h1, h2, h3] at hb
        rcases hb with hb | hb | hb | hb <;> omega

theorem utf8Encode_mem_lt (s : String) : ∀ b ∈ utf8Encode s, b < 256 := by
  intro b hb
  simp only [utf8Encode, List.mem_flatten, List.mem_map] at hb
  obtain ⟨l, ⟨c, _, rfl⟩, hbl⟩ := hb
  have hc : c.toNat < 4194304 := Nat.lt_trans (char_toNat_lt c) (by norm_num)
  exact utf8EncodeChar_mem_lt c.toNat hc b hbl

theorem from_bytes_child_typeError (t : List Nat) (ht : ∀ b ∈ t, b < 256) :
    Node.from_bytes (99 :: t) = .error .typeError := by
  have h1 : ∀ b ∈ (t.drop 32).take 2, b < 256 := fun b hb =>
    ht b (List.mem_of_mem_drop (List.mem_of_mem_take hb))
  have h2 := fromBytesLE_lt _ h1
  have h3 : ((t.drop 32).take 2).length ≤ 2 := by
    rw [List.length_take]
    exact min_le_left _ _
  have h4 : (256 : Nat) ^ ((t.drop 32).take 2).length ≤ 256 ^ 2 :=
    Nat.pow_le_pow_right (by norm_num) h3
  have h5 : fromBytesLE ((t.drop 32).take 2) < 65536 := by
    have h6 := lt_of_lt_of_le h2 h4
    norm_num at h6
    exact h6
  simp [Node.from_bytes, BASE, CHILD]
  omega

/-- C1: serializing any constructible node and deserializing it does not
round-trip: `Node.from_bytes` raises `TypeError` at the digest check
(core/node.py line 107), shown here on the node built from message `"hi"`
and a 32-byte parent. -/
theorem c1_node_roundtrip_raises :
    (Node.init "hi" (some (List.replicate 32 1))).map
      (fun n => Node.from_bytes n.to_bytes) = .ok (.error .typeError) := rfl

/-- C2: constructing a `Node` with the parent argument absent does not
succeed with a `BASE` flag; `Node.__init__` evaluates `len(parent)` with
`parent = None` (core/node.py line 33) and raises `TypeError` for every
message. -/
theorem c2_node_init_absent_parent_raises (msg : String) :
    Node.init msg none = .error .typeError := rfl

/-- Witness for `c2_node_init_absent_parent_raises` at a concrete
message. -/
theorem c2_node_init_absent_parent_raises_witness :
    Node.init "x" none = .error .typeError :=
  c2_node_init_absent_parent_raises "x"

/-- C5: with a positive `step`, `HighDensityDB.__init__` fails with
`AssertionError` exactly on the configurations where `key_size * 256` is
divisible by `step` (which includes the default `step=256, key_size=5`),
and a store object is obtained only when `key_size * 256` is not divisible
by `step`. -/
theorem c5_hddb_init_assert (step key_size : Nat) (h : 0 < step) :
    (key_size * 256 % step = 0 →
      ∀ file, HighDensityDB.init file step key_size = .error .assertionError) ∧
    (∀ file db, HighDensityDB.init file step key_size = .ok db →
      key_size * 256 % step ≠ 0) := by
  have h0 : ¬ step = 0 := by omega
  constructor
  · intro hdvd file
    simp [HighDensityDB.init, h0, hdvd]
  · intro file db hok hdvd
    simp [HighDensityDB.init, h0, hdvd] at hok

/-- Witness for `c5_hddb_init_assert` at the default configuration
`step=256, key_size=5` on an empty file. -/
theorem c5_hddb_init_assert_witness :
    HighDensityDB.init [] 256 5 = .error .assertionError :=
  (c5_hddb_init_assert 256 5 (by decide)).1 (by decide) []

/-- C4: the lookup example of the claim cannot run: the configuration
`step=256, key_size=5` is rejected by the constructor's assertion, and even
under an accepted configuration (`step=255`) the first lookup of a
brand-new key on an empty store raises `KeyError('unset index')` from
`_Index.__getitem__` instead of allocating index sections. -/
theorem c4_hddb_lookup_run :
    HighDensityDB.init [] 256 5 = .error .assertionError ∧
    HighDensityDB.init [] 255 5 = .ok { step := 255, key_size := 5, file := [] } ∧
    HDDB.getitem { step := 255, key_size := 5, file := [] } [1, 2, 3, 4, 5] =
      .error .keyError := by
  refine ⟨rfl, rfl, ?_⟩
  rfl

/-- C10: `ByteArray.bit` computes the bit position as `n - n // 8` instead
of `n % 8`: setting bit 8 of a two-byte array stores the low-order bit of
byte 1 (making it 1 rather than 128 as the most-significant-bit-first
layout requires), and setting bit 9 raises `TypeError` because the float
place value `2 ** (7 - 8)` turns the updated byte into a float. -/
theorem c10_bytearray_bit_run :
    ByteArray.bit [0, 0] 8 (some 1) = .ok (none, [0, 1]) ∧
    ByteArray.bit [0, 0] 9 (some 1) = .error .typeError := by
  refine ⟨rfl, rfl⟩


/-- C7: corrupting any byte after the flag byte of a serialized `CHILD` node
(in particular any byte of the parent or message region) makes
`Node.from_bytes` fail, but with the `TypeError` of the digest-check line,
not with `DecodeError`. -/
theorem c7_from_bytes_corrupted (n : Node) (i v : Nat)
    (hi : 1 ≤ i) (hv : v < 256) (hflag : n.flag = CHILD)
    (hb : ∀ b ∈ n.to_bytes, b < 256) :
    Node.from_bytes (n.to_bytes.set i v) = .error .typeError := by
  obtain ⟨j, rfl⟩ : ∃ j, i = j + 1 := ⟨i - 1, by omega⟩
  have htb : n.to_bytes = 99 :: (n.parent ++ n.len ++ n.msg ++ n.sha) := by
    unfold Node.to_bytes
    rw [hflag]
    rfl
  rw [htb, List.set_cons_succ]
  apply from_bytes_child_typeError
  intro b hbm
  rcases List.mem_or_eq_of_mem_set hbm with h | h
  · exact hb b (by rw [htb]; exact List.mem_cons_of_mem _ h)
  · omega

/-- Witness for `c7_from_bytes_corrupted`: corrupting byte 10 (inside the
parent region) of the serialization of a concrete child node. -/
theorem c7_from_bytes_corrupted_witness :
    Node.from_bytes (c7node.to_bytes.set 10 0) = .error .typeError :=
  c7_from_bytes_corrupted c7node 10 0 (by decide) (by decide) (by rfl) (by decide)

theorem dLookup_dInsert_self {β : Type} (m : List (List Nat × β)) (k : List Nat) (v : β) :
    dLookup (dInsert m k v) k = some v := by
  induction m with
  | nil => simp [dInsert, dLookup]
  | cons kv rest ih =>
    obtain ⟨k1, v1⟩ := kv
    by_cases hk : k1 = k
    · simp [dInsert, dLookup, hk]
    · simp [dInsert, dLookup, hk, ih]

/-- C8: `Tree.link` inserts a node exactly when its `parent` property is a
key of the tree, raises `LinkageError` otherwise, and once a node's parent
has been linked a subsequent link of the node itself succeeds. -/
theorem c8_tree_link (nodes : NodeMap) (n : Node) :
    (Tree.link nodes n = .ok (dInsert nodes n.sha n) ↔
      ∃ p, n.parentProp = some p ∧ (dLookup nodes p).isSome) ∧
    ((¬ ∃ p, n.parentProp = some p ∧ (dLookup nodes p).isSome) →
      Tree.link nodes n = .error .linkageError) ∧
    (∀ pn t1, n.parentProp = some pn.sha → Tree.link nodes pn = .ok t1 →
      ∃ t2, Tree.link t1 n = .ok t2) := by
  have third : ∀ pn t1, n.parentProp = some pn.sha → Tree.link nodes pn = .ok t1 →
      ∃ t2, Tree.link t1 n = .ok t2 := by
    intro pn t1 hps hlink
    have ht1 : t1 = dInsert nodes pn.sha pn := by
      unfold Tree.link at hlink
      rcases hq : pn.parentProp with _ | q
      · rw [hq] at hlink
        exact absurd hlink (by simp)
      · rw [hq] at hlink
        by_cases hl2 : (dLookup nodes q).isSome
        · simp [hl2] at hlink
          exact hlink.symm
        · simp [hl2] at hlink
    subst ht1
    have hself : dLookup (dInsert nodes pn.sha pn) pn.sha = some pn :=
      dLookup_dInsert_self nodes pn.sha pn
    refine ⟨dInsert (dInsert nodes pn.sha pn) n.sha n, ?_⟩
    simp [Tree.link, hps, hself]
  refine ⟨?_, ?_, third⟩
  · constructor
    · intro hok
      rcases hpp : n.parentProp with _ | p
      · unfold Tree.link at hok
        rw [hpp] at hok
        exact absurd hok (by simp)
      · unfold Tree.link at hok
        rw [hpp] at hok
        by_cases hl : (dLookup nodes p).isSome
        · exact ⟨p, rfl, hl⟩
        · simp [hl] at hok
    · rintro ⟨p, hpp, hl⟩
      unfold Tree.link
      rw [hpp]
      simp [hl]
  · intro hne
    rcases hpp : n.parentProp with _ | p
    · unfold Tree.link
      rw [hpp]
    · by_cases hl : (dLookup nodes p).isSome
      · exact absurd ⟨p, hpp, hl⟩ hne
      · unfold Tree.link
        rw [hpp]
        simp [hl]

/-- Witness for `c8_tree_link`: in a tree holding only the base node,
linking `n1Ex` (child of the base) succeeds, after which linking `n2Ex`
(child of `n1Ex`) succeeds. -/
theorem c8_tree_link_witness :
    ∃ t2, Tree.link (dInsert [(baseEx.sha, baseEx)] n1Ex.sha n1Ex) n2Ex = .ok t2 :=
  (c8_tree_link [(baseEx.sha, baseEx)] n2Ex).2.2 n1Ex
    (dInsert [(baseEx.sha, baseEx)] n1Ex.sha n1Ex) (by decide) (by decide)

/-- C6 counterexample: on the concrete chain
`baseEx → n1Ex → n2Ex → n3Ex`, consuming `retrace(n3Ex)` yields
`[n2Ex, n1Ex, baseEx]` — the base node is included — and not `[n2Ex, n1Ex]`
as the claim states. -/
theorem c6_retrace_counterexample :
    Tree.retraceFuel treeEx 10 n3Ex = some (.ok [n2Ex, n1Ex, baseEx]) ∧
    Tree.retraceFuel treeEx 10 n3Ex ≠ some (.ok [n2Ex, n1Ex]) := by
  constructor
  · rfl
  · decide

/-- C6 amended: for every tree containing the chain
`b1 → n1 → n2 → n3`, the generator `retrace(n3)` terminates and yields
exactly `[n2, n1, b1]`: the ancestors from `n3`'s parent up to and
including the base node. -/
theorem c6_retrace_chain (nodes : NodeMap) (b1 n1 n2 n3 : Node) (k : Nat)
    (h3 : dLookup nodes n3.sha = some n3) (hp3 : n3.parentProp = some n2.sha)
    (h2 : dLookup nodes n2.sha = some n2) (hp2 : n2.parentProp = some n1.sha)
    (h1 : dLookup nodes n1.sha = some n1) (hp1 : n1.parentProp = some b1.sha)
    (hb : dLookup nodes b1.sha = some b1) (hpb : b1.parentProp = none)
    (hne2 : n2.sha ≠ []) (hne1 : n1.sha ≠ []) (hneb : b1.sha ≠ []) :
    Tree.retraceFuel nodes (k + 4) n3 = some (.ok [n2, n1, b1]) := by
  have s3 : Tree.retraceStep nodes n3 = .ok (some n2) := by
    simp [Tree.retraceStep, h3, hp3, hne2, h2]
  have s2 : Tree.retraceStep nodes n2 = .ok (some n1) := by
    simp [Tree.retraceStep, h2, hp2, hne1, h1]
  have s1 : Tree.retraceStep nodes n1 = .ok (some b1) := by
    simp [Tree.retraceStep, h1, hp1, hneb, hb]
  have s0 : Tree.retraceStep nodes b1 = .ok none := by
    simp [Tree.retraceStep, hb, hpb]
  have unfold1 : ∀ (f : Nat) (nd : Node), Tree.retraceFuel nodes (f + 1) nd =
      match Tree.retraceStep nodes nd with
      | .error e => some (.error e)
      | .ok none => some (.ok [])
      | .ok (some nx) =>
        (Tree.retraceFuel nodes f nx).map (fun r => r.map (fun l => nx :: l)) :=
    fun f nd => rfl
  have e1 : Tree.retraceFuel nodes (k + 1) b1 = some (.ok []) := by
    rw [unfold1 k b1, s0]
  have e2 : Tree.retraceFuel nodes (k + 2) n1 = some (.ok [b1]) := by
    rw [show k + 2 = (k + 1) + 1 from rfl, unfold1 (k + 1) n1, s1]
    show (Tree.retraceFuel nodes (k + 1) b1).map (fun r => r.map (fun l => b1 :: l)) =
      some (.ok [b1])
    rw [e1]
    rfl
  have e3 : Tree.retraceFuel nodes (k + 3) n2 = some (.ok [n1, b1]) := by
    rw [show k + 3 = (k + 2) + 1 from rfl, unfold1 (k + 2) n2, s2]
    show (Tree.retraceFuel nodes (k + 2) n1).map (fun r => r.map (fun l => n1 :: l)) =
      some (.ok [n1, b1])
    rw [e2]
    rfl
  rw [show k + 4 = (k + 3) + 1 from rfl, unfold1 (k + 3) n3, s3]
  show (Tree.retraceFuel nodes (k + 3) n2).map (fun r => r.map (fun l => n2 :: l)) =
    some (.ok [n2, n1, b1])
  rw [e3]
  rfl

/-- Witness for `c6_retrace_chain` on the concrete chain `treeEx`. -/
theorem c6_retrace_chain_witness :
    Tree.retraceFuel treeEx (6 + 4) n3Ex = some (.ok [n2Ex, n1Ex, baseEx]) :=
  c6_retrace_chain treeEx baseEx n1Ex n2Ex n3Ex 6 (by decide) (by decide)
    (by decide) (by decide) (by decide) (by decide) (by decide) (by decide)
    (by decide) (by decide) (by decide)

theorem loadGo_nil (acc : List (List Nat × List Nat)) : loadGo acc [] = (acc, none) := by
  rw [loadGo]
  rfl

theorem toBytesLE_ne_nil (n x : Nat) (h : 0 < n) : toBytesLE n x ≠ [] := by
  intro he
  have hl := toBytesLE_length n x
  rw [he] at hl
  simp at hl
  omega

theorem loadGo_encodeRec (acc : List (List Nat × List Nat)) (k v : List Nat)
    (rest : List Nat) (hk : k.length < 2 ^ 16) (hv : v.length < 2 ^ 32) :
    loadGo acc (encodeRec (k, v) ++ rest) = loadGo (dInsert acc k v) rest := by
  have lenA : (toBytesLE 2 k.length).length = 2 := toBytesLE_length 2 _
  have lenC : (toBytesLE 4 v.length).length = 4 := toBytesLE_length 4 _
  have hassoc : encodeRec (k, v) ++ rest =
      toBytesLE 2 k.length ++ (k ++ (toBytesLE 4 v.length ++ (v ++ rest))) := by
    simp [encodeRec, List.append_assoc]
  have htake2 : (toBytesLE 2 k.length ++ (k ++ (toBytesLE 4 v.length ++ (v ++ rest)))).take 2 =
      toBytesLE 2 k.length := List.take_left' lenA
  have hdrop2 : (toBytesLE 2 k.length ++ (k ++ (toBytesLE 4 v.length ++ (v ++ rest)))).drop 2 =
      k ++ (toBytesLE 4 v.length ++ (v ++ rest)) := List.drop_left' lenA
  have hAne : toBytesLE 2 k.length ≠ [] := toBytesLE_ne_nil 2 _ (by norm_num)
  have hfromA : fromBytesLE (toBytesLE 2 k.length) = k.length :=
    fromBytesLE_toBytesLE 2 _ (lt_of_lt_of_eq hk (by norm_num))
  have htakek : (k ++ (toBytesLE 4 v.length ++ (v ++ rest))).take k.length = k :=
    List.take_left' rfl
  have hdropk : (toBytesLE 2 k.length ++ (k ++ (toBytesLE 4 v.length ++ (v ++ rest)))).drop
      (2 + k.length) = toBytesLE 4 v.length ++ (v ++ rest) := by
    have he : toBytesLE 2 k.length ++ (k ++ (toBytesLE 4 v.length ++ (v ++ rest))) =
        (toBytesLE 2 k.length ++ k) ++ (toBytesLE 4 v.length ++ (v ++ rest)) := by
      simp [List.append_assoc]
    rw [he]
    exact List.drop_left' (by simp [lenA])
  have htake4 : (toBytesLE 4 v.length ++ (v ++ rest)).take 4 = toBytesLE 4 v.length :=
    List.take_left' lenC
  have hfromC : fromBytesLE (toBytesLE 4 v.length) = v.length :=
    fromBytesLE_toBytesLE 4 _ (lt_of_lt_of_eq hv (by norm_num))
  have hdrop4 : (toBytesLE 4 v.length ++ (v ++ rest)).drop 4 = v ++ rest :=
    List.drop_left' lenC
  have htakev : (v ++ rest).take v.length = v := List.take_left' rfl
  have hdropfin : (toBytesLE 4 v.length ++ (v ++ rest)).drop (4 + v.length) = rest := by
    have he : toBytesLE 4 v.length ++ (v ++ rest) = (toBytesLE 4 v.length ++ v) ++ rest := by
      simp [List.append_assoc]
    rw [he]
    exact List.drop_left' (by simp [lenC])
  rw [hassoc, loadGo]
  rw [dif_neg (by rw [htake2]; exact hAne)]
  simp only [htake2, hdrop2, hfromA, htakek, hdropk, htake4, hfromC, hdrop4, htakev, hdropfin]
  rw [if_neg (by simp)]
  rw [if_neg (by simp)]

theorem loadGo_records_append (l : List (List Nat × List Nat))
    (hb : ∀ kv ∈ l, kv.1.length < 2 ^ 16 ∧ kv.2.length < 2 ^ 32)
    (acc : List (List Nat × List Nat)) (tail : List Nat) :
    loadGo acc ((l.map encodeRec).flatten ++ tail) =
      loadGo (l.foldl (fun a kv => dInsert a kv.1 kv.2) acc) tail := by
  induction l generalizing acc with
  | nil => simp
  | cons kv rest ih =>
    obtain ⟨k, v⟩ := kv
    have h1 := hb (k, v) (by simp)
    have ih1 := ih (fun x hx => hb x (by simp [hx]))
    simp only [List.map_cons, List.flatten_cons, List.append_assoc, List.foldl_cons]
    rw [loadGo_encodeRec acc k v _ h1.1 h1.2]
    exact ih1 (dInsert acc k v)

theorem dInsert_of_lookup_none {β : Type} (m : List (List Nat × β)) (k : List Nat) (v : β)
    (h : dLookup m k = none) : dInsert m k v = m ++ [(k, v)] := by
  induction m with
  | nil => rfl
  | cons kv rest ih =>
    obtain ⟨k1, v1⟩ := kv
    by_cases hk : k1 = k
    · rw [dLookup, if_pos hk] at h
      exact absurd h (by simp)
    · rw [dLookup, if_neg hk] at h
      rw [dInsert, if_neg hk, ih h]
      rfl

theorem dLookup_append_single_ne {β : Type} (m : List (List Nat × β)) (k k1 : List Nat)
    (v : β) (h1 : dLookup m k1 = none) (h2 : k ≠ k1) :
    dLookup (m ++ [(k, v)]) k1 = none := by
  induction m with
  | nil => simp [dLookup, h2]
  | cons kv rest ih =>
    obtain ⟨ka, va⟩ := kv
    by_cases hk : ka = k1
    · rw [dLookup, if_pos hk] at h1
      exact absurd h1 (by simp)
    · rw [dLookup, if_neg hk] at h1
      rw [List.cons_append, dLookup, if_neg hk]
      exact ih h1

theorem foldl_dInsert_fresh {β : Type} (l : List (List Nat × β)) (acc : List (List Nat × β))
    (hnd : (l.map Prod.fst).Nodup)
    (hfresh : ∀ kv ∈ l, dLookup acc kv.1 = none) :
    l.foldl (fun a kv => dInsert a kv.1 kv.2) acc = acc ++ l := by
  induction l generalizing acc with
  | nil => simp
  | cons kv rest ih =>
    obtain ⟨k, v⟩ := kv
    have hacc : dLookup acc k = none := hfresh (k, v) (by simp)
    rw [List.foldl_cons]
    rw [show dInsert acc (k, v).1 (k, v).2 = acc ++ [(k, v)] from
      dInsert_of_lookup_none acc k v hacc]
    have hnd2 : (rest.map Prod.fst).Nodup := by
      rw [List.map_cons, List.nodup_cons] at hnd
      exact hnd.2
    have hkfresh : k ∉ rest.map Prod.fst := by
      rw [List.map_cons, List.nodup_cons] at hnd
      exact hnd.1
    have hfresh2 : ∀ kv2 ∈ rest, dLookup (acc ++ [(k, v)]) kv2.1 = none := by
      intro kv2 hkv2
      have ha : dLookup acc kv2.1 = none := hfresh kv2 (by simp [hkv2])
      have hne : k ≠ kv2.1 := by
        intro he
        exact hkfresh (he ▸ List.mem_map_of_mem Prod.fst hkv2)
      exact dLookup_append_single_ne acc k kv2.1 v ha hne
    rw [ih (acc ++ [(k, v)]) hnd2 hfresh2]
    simp

/-- C3: dumping any dictionary with `iter_dump` and loading the resulting
file with `iter_load` reproduces the dictionary exactly, for every
iteration order (the dictionary is an arbitrary list of distinct-keyed
entries within the documented size bounds). -/
theorem c3_lineardict_dump_load (d : List (List Nat × List Nat))
    (hnd : (d.map Prod.fst).Nodup)
    (hb : ∀ kv ∈ d, kv.1.length < 2 ^ 16 ∧ kv.2.length < 2 ^ 32)
    (hcount : d.length < 2 ^ 64) :
    ∃ file, iter_dump d = .ok file ∧ iter_load file = (d, none) := by
  refine ⟨toBytesLE 8 d.length ++ (d.map encodeRec).flatten, ?_, ?_⟩
  · have hrec : dumpRecs d = .ok ((d.map encodeRec).flatten) := by
      clear hnd hcount
      induction d with
      | nil => rfl
      | cons kv rest ih =>
        obtain ⟨k, v⟩ := kv
        have hk1 : k.length < 2 ^ 16 := (hb (k, v) (by simp)).1
        have hv1 : v.length < 2 ^ 32 := (hb (k, v) (by simp)).2
        have ih1 := ih (fun x hx => hb x (by simp [hx]))
        rw [dumpRecs, if_neg (by omega), if_neg (by omega), ih1]
        rfl
    rw [iter_dump, if_neg (by omega), hrec]
    rfl
  · rw [iter_load, List.drop_left' (toBytesLE_length 8 _)]
    have hrec : (d.map encodeRec).flatten = (d.map encodeRec).flatten ++ [] := by simp
    rw [hrec, loadGo_records_append d hb [] [], loadGo_nil]
    rw [foldl_dInsert_fresh d [] hnd (fun kv _ => rfl)]
    rfl

/-- Witness for `c3_lineardict_dump_load` on a concrete two-entry
dictionary. -/
theorem c3_lineardict_dump_load_witness :
    ∃ file, iter_dump [([1], [2, 3]), ([4], [])] = .ok file ∧
      iter_load file = ([([1], [2, 3]), ([4], [])], none) :=
  c3_lineardict_dump_load [([1], [2, 3]), ([4], [])] (by decide) (by decide) (by decide)

theorem loadGo_trunc_key (acc : List (List Nat × List Nat)) (klen : Nat) (kpart : List Nat)
    (hlt : kpart.length < klen) (hklen : klen < 2 ^ 16) :
    loadGo acc (toBytesLE 2 klen ++ kpart) = (acc, some .loaderError) := by
  have lenA : (toBytesLE 2 klen).length = 2 := toBytesLE_length 2 _
  have htake2 : (toBytesLE 2 klen ++ kpart).take 2 = toBytesLE 2 klen := List.take_left' lenA
  have hdrop2 : (toBytesLE 2 klen ++ kpart).drop 2 = kpart := List.drop_left' lenA
  have hAne : toBytesLE 2 klen ≠ [] := toBytesLE_ne_nil 2 _ (by norm_num)
  have hfromA : fromBytesLE (toBytesLE 2 klen) = klen :=
    fromBytesLE_toBytesLE 2 _ (lt_of_lt_of_eq hklen (by norm_num))
  have htakek : kpart.take klen = kpart := List.take_of_length_le (by omega)
  rw [loadGo]
  rw [dif_neg (by rw [htake2]; exact hAne)]
  simp only [htake2, hdrop2, hfromA, htakek]
  rw [if_pos (by omega)]

theorem loadGo_trunc_val (acc : List (List Nat × List Nat)) (k : List Nat) (vlen : Nat)
    (vpart : List Nat) (hk : k.length < 2 ^ 16) (hvlen : vlen < 2 ^ 32)
    (hlt : vpart.length < vlen) :
    loadGo acc (toBytesLE 2 k.length ++ (k ++ (toBytesLE 4 vlen ++ vpart))) =
      (acc, some .loaderError) := by
  have lenA : (toBytesLE 2 k.length).length = 2 := toBytesLE_length 2 _
  have lenC : (toBytesLE 4 vlen).length = 4 := toBytesLE_length 4 _
  have htake2 : (toBytesLE 2 k.length ++ (k ++ (toBytesLE 4 vlen ++ vpart))).take 2 =
      toBytesLE 2 k.length := List.take_left' lenA
  have hdrop2 : (toBytesLE 2 k.length ++ (k ++ (toBytesLE 4 vlen ++ vpart))).drop 2 =
      k ++ (toBytesLE 4 vlen ++ vpart) := List.drop_left' lenA
  have hAne : toBytesLE 2 k.length ≠ [] := toBytesLE_ne_nil 2 _ (by norm_num)
  have hfromA : fromBytesLE (toBytesLE 2 k.length) = k.length :=
    fromBytesLE_toBytesLE 2 _ (lt_of_lt_of_eq hk (by norm_num))
  have htakek : (k ++ (toBytesLE 4 vlen ++ vpart)).take k.length = k := List.take_left' rfl
  have hdropk : (toBytesLE 2 k.length ++ (k ++ (toBytesLE 4 vlen ++ vpart))).drop
      (2 + k.length) = toBytesLE 4 vlen ++ vpart := by
    have he : toBytesLE 2 k.length ++ (k ++ (toBytesLE 4 vlen ++ vpart)) =
        (toBytesLE 2 k.length ++ k) ++ (toBytesLE 4 vlen ++ vpart) := by
      simp [List.append_assoc]
    rw [he]
    exact List.drop_left' (by simp [lenA])
  have htake4 : (toBytesLE 4 vlen ++ vpart).take 4 = toBytesLE 4 vlen := List.take_left' lenC
  have hfromC : fromBytesLE (toBytesLE 4 vlen) = vlen :=
    fromBytesLE_toBytesLE 4 _ (lt_of_lt_of_eq hvlen (by norm_num))
  have hdrop4 : (toBytesLE 4 vlen ++ vpart).drop 4 = vpart := List.drop_left' lenC
  have htakev : vpart.take vlen = vpart := List.take_of_length_le (by omega)
  rw [loadGo]
  rw [dif_neg (by rw [htake2]; exact hAne)]
  simp only [htake2, hdrop2, hfromA, htakek, hdropk, htake4, hfromC, hdrop4, htakev]
  rw [if_neg (by simp)]
  rw [if_pos (by omega)]

/-- C9: loading a snapshot file that carries a well-formed record section
for the entries `l1` followed by a record truncated inside a declared key
or inside a declared value fails with `LoaderError`, and every entry parsed
before the truncation point remains in the mapping. -/
theorem c9_lineardict_load_truncated (l1 : List (List Nat × List Nat))
    (hnd : (l1.map Prod.fst).Nodup)
    (hb : ∀ kv ∈ l1, kv.1.length < 2 ^ 16 ∧ kv.2.length < 2 ^ 32)
    (c klen : Nat) (kpart k2 vpart : List Nat) (vlen : Nat)
    (hkp : kpart.length < klen) (hklen : klen < 2 ^ 16)
    (hk2 : k2.length < 2 ^ 16) (hvlen : vlen < 2 ^ 32) (hvp : vpart.length < vlen) :
    iter_load (toBytesLE 8 c ++ ((l1.map encodeRec).flatten ++
        (toBytesLE 2 klen ++ kpart))) = (l1, some .loaderError) ∧
    iter_load (toBytesLE 8 c ++ ((l1.map encodeRec).flatten ++
        (toBytesLE 2 k2.length ++ (k2 ++ (toBytesLE 4 vlen ++ vpart))))) =
      (l1, some .loaderError) := by
  have hfold : l1.foldl (fun a kv => dInsert a kv.1 kv.2) [] = l1 := by
    rw [foldl_dInsert_fresh l1 [] hnd (fun kv _ => rfl)]
    simp
  constructor
  · rw [iter_load, List.drop_left' (toBytesLE_length 8 _),
      loadGo_records_append l1 hb [] _, hfold]
    exact loadGo_trunc_key l1 klen kpart hkp hklen
  · rw [iter_load, List.drop_left' (toBytesLE_length 8 _),
      loadGo_records_append l1 hb [] _, hfold]
    exact loadGo_trunc_val l1 k2 vlen vpart hk2 hvlen hvp

/-- Witness for `c9_lineardict_load_truncated` on a one-entry prefix with a
key truncated against a declared length of 3 and a value truncated against
a declared length of 4. -/
theorem c9_lineardict_load_truncated_witness :
    iter_load (toBytesLE 8 1 ++ (([([1], [2])].map encodeRec).flatten ++
        (toBytesLE 2 3 ++ [5]))) = ([([1], [2])], some .loaderError) ∧
    iter_load (toBytesLE 8 1 ++ (([([1], [2])].map encodeRec).flatten ++
        (toBytesLE 2 [7].length ++ ([7] ++ (toBytesLE 4 4 ++ [9]))))) =
      ([([1], [2])], some .loaderError) :=
  c9_lineardict_load_truncated [([1], [2])] (by decide) (by decide) 1 3 [5] [7] [9] 4
    (by decide) (by decide) (by decide) (by decide) (by decide)
